import Mathlib

/-!
Verification of the Aurus cross-device sync engine.

Bytes are modelled as natural numbers below 256 and byte strings as
`List Nat`.  Machine integers are `Nat` with explicit `% 2 ^ w` where the
source wraps.  The cryptographic hash pipeline (SHA-256, HMAC, HKDF) is
implemented concretely following RFC 6234 / RFC 2104 / RFC 5869, which is
what the `ring` crate provides to the source.
-/

namespace Aurus

/-- Bitwise XOR on single bits represented as `0`/`1`. -/
def bitXor (a b : Nat) : Nat := (a + b) % 2

/-- Bitwise AND on single bits represented as `0`/`1`. -/
def bitAnd (a b : Nat) : Nat := a * b

/-- Combine the low `fuel` bits of `a` and `b` with the bit operation `f`.
Structural recursion on the fuel keeps kernel reduction fast. -/
def bitw (f : Nat → Nat → Nat) : Nat → Nat → Nat → Nat
  | 0, _, _ => 0
  | fuel + 1, a, b => f (a % 2) (b % 2) + 2 * bitw f fuel (a / 2) (b / 2)

/-- 32-bit XOR. -/
def xor32 (a b : Nat) : Nat := bitw bitXor 32 a b

/-- 32-bit AND. -/
def and32 (a b : Nat) : Nat := bitw bitAnd 32 a b

/-- 32-bit complement (argument reduced into range first). -/
def not32 (a : Nat) : Nat := 4294967295 - a % 4294967296

/-- Addition modulo `2 ^ 32`. -/
def add32 (a b : Nat) : Nat := (a + b) % 4294967296

/-- Right rotation of a 32-bit word by `n` places. -/
def rotr32 (x n : Nat) : Nat := (x % 4294967296 / 2 ^ n + x % 2 ^ n * 2 ^ (32 - n)) % 4294967296

/-- Logical right shift of a 32-bit word. -/
def shr32 (x n : Nat) : Nat := x / 2 ^ n

/-- 8-bit XOR (used by the HMAC pads). -/
def xorByte (a b : Nat) : Nat := bitw bitXor 8 a b

/-- Big-endian byte encoding of `v` into exactly `n` bytes (truncating to
`v % 2 ^ (8 * n)`), mirroring `u64::to_be_bytes` and friends. -/
def toBEBytes : Nat → Nat → List Nat
  | 0, _ => []
  | n + 1, v => toBEBytes n (v / 256) ++ [v % 256]

/-- UTF-8 encoding of a single character. -/
def charBytes (c : Char) : List Nat :=
  let n := c.toNat
  if n < 128 then [n]
  else if n < 2048 then [192 + n / 64, 128 + n % 64]
  else if n < 65536 then [224 + n / 4096, 128 + n / 64 % 64, 128 + n % 64]
  else [240 + n / 262144, 128 + n / 4096 % 64, 128 + n / 64 % 64, 128 + n % 64]

/-- UTF-8 bytes of a string. -/
def strBytes (s : String) : List Nat := s.data.flatMap charBytes

-- -------------------------------------------------------------------------
-- SHA-256 (RFC 6234)
-- -------------------------------------------------------------------------

/-- The 64 SHA-256 round constants (FIPS 180-4 section 4.2.2, here written
in decimal). -/
def sha256K : List Nat :=
  [1116352408, 1899447441, 3049323471, 3921009573, 961987163,
   1508970993, 2453635748, 2870763221, 3624381080, 310598401,
   607225278, 1426881987, 1925078388, 2162078206, 2614888103,
   3248222580, 3835390401, 4022224774, 264347078, 604807628,
   770255983, 1249150122, 1555081692, 1996064986, 2554220882,
   2821834349, 2952996808, 3210313671, 3336571891, 3584528711,
   113926993, 338241895, 666307205, 773529912, 1294757372,
   1396182291, 1695183700, 1986661051, 2177026350, 2456956037,
   2730485921, 2820302411, 3259730800, 3345764771, 3516065817,
   3600352804, 4094571909, 275423344, 430227734, 506948616,
   659060556, 883997877, 958139571, 1322822218, 1537002063,
   1747873779, 1955562222, 2024104815, 2227730452, 2361852424,
   2428436474, 2756734187, 3204031479, 3329325298]

/-- The SHA-256 initial hash value (FIPS 180-4 section 5.3.3, in decimal). -/
def sha256H0 : List Nat :=
  [1779033703, 3144134277, 1013904242, 2773480762, 1359893119,
   2600822924, 528734635, 1541459225]

/-- SHA-256 small sigma 0. -/
def ssig0 (x : Nat) : Nat := xor32 (xor32 (rotr32 x 7) (rotr32 x 18)) (shr32 x 3)

/-- SHA-256 small sigma 1. -/
def ssig1 (x : Nat) : Nat := xor32 (xor32 (rotr32 x 17) (rotr32 x 19)) (shr32 x 10)

/-- SHA-256 big sigma 0. -/
def bsig0 (x : Nat) : Nat := xor32 (xor32 (rotr32 x 2) (rotr32 x 13)) (rotr32 x 22)

/-- SHA-256 big sigma 1. -/
def bsig1 (x : Nat) : Nat := xor32 (xor32 (rotr32 x 6) (rotr32 x 11)) (rotr32 x 25)

/-- SHA-256 choice function. -/
def chFn (x y z : Nat) : Nat := xor32 (and32 x y) (and32 (not32 x) z)

/-- SHA-256 majority function. -/
def majFn (x y z : Nat) : Nat := xor32 (xor32 (and32 x y) (and32 x z)) (and32 y z)

/-- Group a byte list into big-endian 32-bit words. -/
def bytesToWordsBE : List Nat → List Nat
  | b0 :: b1 :: b2 :: b3 :: rest => (((b0 * 256 + b1) * 256 + b2) * 256 + b3) :: bytesToWordsBE rest
  | _ => []

/-- Extend a 16-word message schedule by `n` further words. -/
def extendW : Nat → List Nat → List Nat
  | 0, w => w
  | n + 1, w =>
      let t := add32 (add32 (ssig1 (w.getD (w.length - 2) 0)) (w.getD (w.length - 7) 0))
                     (add32 (ssig0 (w.getD (w.length - 15) 0)) (w.getD (w.length - 16) 0))
      extendW n (w ++ [t])

/-- One SHA-256 compression round on the 8-word working state. -/
def compressRound (k w : Nat) (st : List Nat) : List Nat :=
  match st with
  | [a, b, c, d, e, f, g, h] =>
      let t1 := add32 h (add32 (bsig1 e) (add32 (chFn e f g) (add32 k w)))
      let t2 := add32 (bsig0 a) (majFn a b c)
      [add32 t1 t2, a, b, c, add32 d t1, e, f, g]
  | other => other

/-- Process one padded 64-byte block. -/
def compressBlock (h : List Nat) (block : List Nat) : List Nat :=
  let w := extendW 48 (bytesToWordsBE block)
  let final := (sha256K.zip w).foldl (fun st kw => compressRound kw.1 kw.2 st) h
  List.zipWith add32 h final

/-- SHA-256 padding: append `0x80`, zeros, then the 64-bit big-endian bit length. -/
def padMessage (msg : List Nat) : List Nat :=
  msg ++ [128] ++ List.replicate ((119 - msg.length % 64) % 64) 0 ++ toBEBytes 8 (msg.length * 8)

/-- Split a byte list into 64-byte blocks; the fuel (first argument) bounds
the number of blocks so that the recursion is structural. -/
def chunksF : Nat → List Nat → List (List Nat)
  | 0, _ => []
  | fuel + 1, l => if l = [] then [] else (l.take 64) :: chunksF fuel (l.drop 64)

/-- Split a byte list into 64-byte blocks. -/
def chunks64 (l : List Nat) : List (List Nat) := chunksF l.length l

/-- The SHA-256 digest (32 bytes) of a byte string. -/
def sha256 (msg : List Nat) : List Nat :=
  ((chunks64 (padMessage msg)).foldl compressBlock sha256H0).foldr
    (fun w acc => toBEBytes 4 w ++ acc) []

-- -------------------------------------------------------------------------
-- HMAC-SHA256 (RFC 2104) and HKDF (RFC 5869)
-- -------------------------------------------------------------------------

/-- HMAC-SHA256. -/
def hmacSha256 (key msg : List Nat) : List Nat :=
  let k0 := if 64 < key.length then sha256 key ++ List.replicate 32 0
            else key ++ List.replicate (64 - key.length) 0
  sha256 ((k0.map (fun b => xorByte b 92)) ++ sha256 ((k0.map (fun b => xorByte b 54)) ++ msg))

/-- HKDF-SHA256 extract step. -/
def hkdfExtract (salt ikm : List Nat) : List Nat := hmacSha256 salt ikm

/-- HKDF-SHA256 expand step for a 32-byte output (a single `T(1)` block). -/
def hkdfExpand32 (prk info : List Nat) : List Nat := hmacSha256 prk (info ++ [1])

/-- HKDF-SHA256 with 32-byte output length. -/
def hkdf32 (salt ikm info : List Nat) : List Nat := hkdfExpand32 (hkdfExtract salt ikm) info

-- -------------------------------------------------------------------------
-- SessionEncryption (src/src-tauri/src/sync/encryption.rs)
-- -------------------------------------------------------------------------

/-- Wrapping modulus of a `u64`. -/
def u64Mod : Nat := 18446744073709551616

/-- An encrypted sync message sent over the wire. -/
structure EncryptedEnvelope where
  counter : Nat
  ciphertext : List Nat
deriving DecidableEq

/-- The AEAD primitive the source obtains from the `ring` crate
(`AES_256_GCM` seal/open).  The cipher itself is external library code, so
it is a parameter: `sealA key nonce plaintext` produces the ciphertext with
appended tag, `openA key nonce ciphertext` authenticates and decrypts. -/
structure AEAD where
  sealA : List Nat → List Nat → List Nat → List Nat
  openA : List Nat → List Nat → List Nat → Option (List Nat)

/-- Functional correctness of an AEAD primitive: opening a sealed message
under the same key and nonce returns the plaintext. -/
def AEADCorrect (A : AEAD) : Prop :=
  ∀ key nonce p, A.openA key nonce (A.sealA key nonce p) = some p

/-- Session encryption state: the retained shared secret, the derived key
material, and the monotonically increasing seal counter (a `u64`). -/
structure SessionEncryption where
  shared_secret : List Nat
  key_material : List Nat
  seal_counter : Nat
deriving DecidableEq

/-- `SessionEncryption::from_shared_secret`: expand the secret via
HKDF-SHA256 with salt `"aurus-sync-v1"` and info `"aes-256-gcm-key"` into
32 bytes of key material; the counter starts at 0.  (The Rust `Result` is
always `Ok` for a 32-byte output, so the embedding is total.) -/
def SessionEncryption.from_shared_secret (secret : List Nat) : SessionEncryption :=
  { shared_secret := secret,
    key_material := hkdf32 (strBytes ("aurus-sync-v1")) secret (strBytes ("aes-256-gcm-key")),
    seal_counter := 0 }

/-- Overwrite a byte range of `l` starting at index `i` with `src`
(the effect of `copy_from_slice` on a slice of an array). -/
def setRange (l : List Nat) (i : Nat) (src : List Nat) : List Nat :=
  l.take i ++ src ++ l.drop (i + src.length)

/-- `counter_to_nonce`: a 12-byte nonce, all zero, with the counter's
big-endian `u64` bytes copied into positions 4..12. -/
def counter_to_nonce (counter : Nat) : List Nat :=
  setRange (List.replicate 12 0) 4 (toBEBytes 8 counter)

/-- `SessionEncryption::encrypt`: fetch-and-increment the counter (wrapping
as a `u64`), seal with the counter-derived nonce, and return the envelope
together with the post-state. -/
def SessionEncryption.encrypt (s : SessionEncryption) (A : AEAD) (plaintext : List Nat) :
    EncryptedEnvelope × SessionEncryption :=
  ({ counter := s.seal_counter,
     ciphertext := A.sealA s.key_material (counter_to_nonce s.seal_counter) plaintext },
   { s with seal_counter := (s.seal_counter + 1) % u64Mod })

/-- `SessionEncryption::decrypt`: rebuild the nonce from the envelope's
counter and open with the current key material.  The body performs no
writes, so the post-state is the input state. -/
def SessionEncryption.decrypt (s : SessionEncryption) (A : AEAD) (envelope : EncryptedEnvelope) :
    Option (List Nat) × SessionEncryption :=
  (A.openA s.key_material (counter_to_nonce envelope.counter) envelope.ciphertext, s)

/-- The in-place zeroing loop `for byte in key.iter_mut() { *byte = 0 }`. -/
def zeroBytes (l : List Nat) : List Nat := l.map (fun _ => 0)

/-- `SessionEncryption::rotate_key`: derive the next key by HKDF-SHA256
with salt `"aurus-sync-rotate"` and info `"next-key"` from the current key
material, zero the old buffer, install the new key and reset the counter.
The second component is the final contents of the old key buffer after the
zeroing loop ran.  The rotate-context HKDF derivation is `nextKey`. -/
def nextKey (key : List Nat) : List Nat :=
  hkdf32 (strBytes ("aurus-sync-rotate")) key (strBytes ("next-key"))

def SessionEncryption.rotate_key (s : SessionEncryption) : SessionEncryption × List Nat :=
  ({ s with key_material := nextKey s.key_material, seal_counter := 0 },
   zeroBytes s.key_material)

/-- `n` successive key rotations from a given state. -/
def SessionEncryption.rotateN : Nat → SessionEncryption → SessionEncryption
  | 0, s => s
  | n + 1, s => ((SessionEncryption.rotateN n s).rotate_key).1

/-- The key material of the cipher derived from `secret` after `epoch`
rotations — "the same rotation history" of the round-trip contract. -/
def derivedKey (secret : List Nat) (epoch : Nat) : List Nat :=
  (SessionEncryption.rotateN epoch (SessionEncryption.from_shared_secret secret)).key_material

/-- The state after the `n`-th encrypt call, starting from `s0` and
encrypting plaintexts `ps 0, ps 1, ...` in order. -/
def encState (A : AEAD) (ps : Nat → List Nat) (s0 : SessionEncryption) : Nat → SessionEncryption
  | 0 => s0
  | n + 1 => ((encState A ps s0 n).encrypt A (ps n)).2

/-- The envelope produced by the `n`-th encrypt call (0-based). -/
def nthEnvelope (A : AEAD) (ps : Nat → List Nat) (s0 : SessionEncryption) (n : Nat) :
    EncryptedEnvelope :=
  ((encState A ps s0 n).encrypt A (ps n)).1

/-- Fold any number of decrypt calls over a state. -/
def decryptMany (A : AEAD) (s : SessionEncryption) (envs : List EncryptedEnvelope) :
    SessionEncryption :=
  envs.foldl (fun st e => (st.decrypt A e).2) s

/-- A concrete AEAD instance used to show the AEAD correctness hypothesis
is satisfiable: it tags the message with the key and nonce.  It stands in
for AES-256-GCM, which lives in the external `ring` crate. -/
def prefixTagAEAD : AEAD :=
  { sealA := fun key nonce p => (key ++ nonce) ++ p,
    openA := fun key nonce c =>
      if c.take (key ++ nonce).length = key ++ nonce then some (c.drop (key ++ nonce).length)
      else none }

theorem prefixTagAEAD_correct : AEADCorrect prefixTagAEAD := by
  intro key nonce p
  show (if ((key ++ nonce) ++ p).take (key ++ nonce).length = key ++ nonce then
          some (((key ++ nonce) ++ p).drop (key ++ nonce).length)
        else none) = some p
  rw [List.take_left, List.drop_left, if_pos rfl]

-- -------------------------------------------------------------------------
-- Signaling client helpers (src/src-tauri/src/sync/signaling.rs)
-- -------------------------------------------------------------------------

/-- One lowercase hexadecimal digit. -/
def hexDigit (n : Nat) : Char := if n < 10 then Char.ofNat (48 + n) else Char.ofNat (87 + n)

/-- The two lowercase hex characters of `format "02x"` applied to a byte. -/
def hexByte (b : Nat) : List Char := [hexDigit (b / 16 % 16), hexDigit (b % 16)]

/-- `hex_encode`: lowercase hex encoding of a byte string. -/
def hex_encode (bytes : List Nat) : String := String.mk (bytes.flatMap hexByte)

/-- `room_id_from_pairing_code`: SHA-256 of the code's UTF-8 bytes in
lowercase hex. -/
def room_id_from_pairing_code (code : String) : String := hex_encode (sha256 (strBytes code))

-- -------------------------------------------------------------------------
-- Signaling relay (src/signaling-server/src/main.rs)
-- -------------------------------------------------------------------------

/-- `MAX_CLIENTS_PER_ROOM`. -/
def MAX_CLIENTS_PER_ROOM : Nat := 2

/-- A message the relay pushes to a client's outbox. -/
inductive RelayOut where
  | peerJoined (room cid : String)
  | peerLeft (room cid : String)
  | relayed (room cid payload : String)
deriving DecidableEq

/-- The relay's room table: an association list mirroring
`HashMap<String, Room>`, each room holding its member ids. -/
abbrev Rooms : Type := List (String × List String)

/-- Lookup a room by id. -/
def lookupRoom : Rooms → String → Option (List String)
  | [], _ => none
  | (r, cs) :: rest, room => if r = room then some cs else lookupRoom rest room

/-- Replace (or append) a room's member list. -/
def setRoom : Rooms → String → List String → Rooms
  | [], room, cs => [(room, cs)]
  | (r, old) :: rest, room, cs =>
      if r = room then (r, cs) :: rest else (r, old) :: setRoom rest room cs

/-- Remove a room. -/
def removeRoom : Rooms → String → Rooms
  | [], _ => []
  | (r, old) :: rest, room => if r = room then rest else (r, old) :: removeRoom rest room

/-- `HashMap::insert` on the member set: replaces an existing id. -/
def insertClient (cs : List String) (cid : String) : List String :=
  if cid ∈ cs then cs else cs ++ [cid]

/-- The `ClientMessage::Join` branch of `handle_socket`: get-or-create the
room, silently drop the join if the room is full, otherwise notify every
existing member and insert the joiner.  Returns the new table and the
messages sent, paired with their recipients. -/
def joinRoom (rooms : Rooms) (room cid : String) : Rooms × List (String × RelayOut) :=
  let rooms1 := match lookupRoom rooms room with
                | some _ => rooms
                | none => rooms ++ [(room, [])]
  let clients := (lookupRoom rooms1 room).getD []
  if MAX_CLIENTS_PER_ROOM ≤ clients.length then (rooms1, [])
  else (setRoom rooms1 room (insertClient clients cid),
        clients.map (fun c => (c, RelayOut.peerJoined room cid)))

/-- The `ClientMessage::Relay` branch: forward to every other member. -/
def relayToRoom (rooms : Rooms) (room cid payload : String) : Rooms × List (String × RelayOut) :=
  match lookupRoom rooms room with
  | none => (rooms, [])
  | some cs =>
      (rooms, (cs.filter (fun c => c ≠ cid)).map (fun c => (c, RelayOut.relayed room cid payload)))

/-- The disconnect cleanup: remove the member, notify the remaining ones,
and delete the room if it became empty. -/
def disconnectClient (rooms : Rooms) (room cid : String) : Rooms × List (String × RelayOut) :=
  match lookupRoom rooms room with
  | none => (rooms, [])
  | some cs =>
      let cs1 := cs.filter (fun c => c ≠ cid)
      let outs := cs1.map (fun c => (c, RelayOut.peerLeft room cid))
      if cs1.isEmpty then (removeRoom rooms room, outs) else (setRoom rooms room cs1, outs)

/-- The relay events that change or read the room table. -/
inductive RelayEvent where
  | join (room cid : String)
  | relayMsg (room cid payload : String)
  | disconnect (room cid : String)

/-- One step of the relay. -/
def relayStep (rooms : Rooms) : RelayEvent → Rooms × List (String × RelayOut)
  | RelayEvent.join room cid => joinRoom rooms room cid
  | RelayEvent.relayMsg room cid payload => relayToRoom rooms room cid payload
  | RelayEvent.disconnect room cid => disconnectClient rooms room cid

/-- The room table reached after a sequence of events, from the empty
table the server starts with. -/
def runRelay (evs : List RelayEvent) : Rooms :=
  evs.foldl (fun rooms e => (relayStep rooms e).1) []

/-- Every room holds at most `MAX_CLIENTS_PER_ROOM` members. -/
def capOK (rooms : Rooms) : Prop :=
  ∀ e ∈ rooms, e.2.length ≤ MAX_CLIENTS_PER_ROOM

instance (rooms : Rooms) : Decidable (capOK rooms) := by
  unfold capOK; infer_instance

-- -------------------------------------------------------------------------
-- SyncDocument (src/src-tauri/src/sync/document.rs)
-- -------------------------------------------------------------------------

/-- Modelled from the spec: one keyed CRDT register.  The `yrs` crate that
implements the document is external library code; per the spec each value
is "CRDT-merged: concurrent writes to the same key resolve by
last-writer-wins keyed on the CRDT's internal Lamport ordering", so an
entry carries its map name, key, Lamport timestamp and value. -/
structure DocEntry where
  mapName : String
  key : String
  ts : Nat
  value : String
deriving DecidableEq

/-- Modelled from the spec: the document state is the set of current
register values, at most one per (map, key) slot. -/
abbrev Doc : Type := List DocEntry

/-- A freshly created document: the nine named maps exist but hold no
values. -/
def freshDoc : Doc := []

/-- Find the current entry of a (map, key) slot. -/
def lookupSlot : Doc → String → String → Option DocEntry
  | [], _, _ => none
  | e :: rest, m, k =>
      if e.mapName = m ∧ e.key = k then some e else lookupSlot rest m k

/-- Replace the entry occupying `e`'s slot by `e`. -/
def replaceSlot : Doc → DocEntry → Doc
  | [], e => [e]
  | x :: rest, e =>
      if x.mapName = e.mapName ∧ x.key = e.key then e :: rest else x :: replaceSlot rest e

/-- Modelled from the spec: merge a single incoming register write by
last-writer-wins on the Lamport timestamp (existing entry kept on ties). -/
def mergeEntry (d : Doc) (e : DocEntry) : Doc :=
  match lookupSlot d e.mapName e.key with
  | none => d ++ [e]
  | some old => if old.ts < e.ts then replaceSlot d e else d

/-- Modelled from the spec: merge a decoded update into the document. -/
def mergeDoc (d : Doc) (u : List DocEntry) : Doc := u.foldl mergeEntry d

/-- Read a length-tagged chunk from the byte stream. -/
def readChunk (l : List Nat) : Option (List Nat × List Nat) :=
  match l with
  | [] => none
  | n :: rest => if n ≤ rest.length then some (rest.take n, rest.drop n) else none

/-- Decode a byte list into a string. -/
def bytesToStr (l : List Nat) : String := String.mk (l.map Char.ofNat)

/-- Modelled from the spec: parse one serialized register write
(map name, key, timestamp byte, value). -/
def parseEntry (l : List Nat) : Option (DocEntry × List Nat) := do
  let (m, l1) ← readChunk l
  let (k, l2) ← readChunk l1
  match l2 with
  | [] => none
  | t :: l3 => do
      let (v, l4) ← readChunk l3
      pure (⟨bytesToStr m, bytesToStr k, t, bytesToStr v⟩, l4)

/-- Parse exactly `n` serialized entries. -/
def parseEntries : Nat → List Nat → Option (List DocEntry × List Nat)
  | 0, l => some ([], l)
  | n + 1, l => do
      let (e, l1) ← parseEntry l
      let (es, l2) ← parseEntries n l1
      pure (e :: es, l2)

/-- Modelled from the spec: `Update::decode_v1` of the `yrs` crate —
a decoder from update bytes that rejects malformed input.  The model
format is an entry count followed by that many serialized entries, with
no trailing bytes allowed. -/
def decodeUpdate (bytes : List Nat) : Option (List DocEntry) :=
  match bytes with
  | [] => none
  | n :: rest =>
      match parseEntries n rest with
      | some (es, []) => some es
      | _ => none

/-- `SyncDocument::apply_update`: decode the bytes, failing with a
`DocumentError` (and no state change) on malformed input, otherwise merge
the update into the document. -/
def apply_update (d : Doc) (bytes : List Nat) : Except String Unit × Doc :=
  match decodeUpdate bytes with
  | none => (Except.error ("Failed to decode update"), d)
  | some u => (Except.ok (), mergeDoc d u)

-- -------------------------------------------------------------------------
-- Discovery fingerprint (src/src-tauri/src/sync/mod.rs, discovery.rs)
-- -------------------------------------------------------------------------

/-- The hyphenated lowercase-hex rendering of a 16-byte UUID
(`Uuid::to_string`, format 8-4-4-4-12). -/
def uuidToString (b : List Nat) : String :=
  String.mk ((b.take 4).flatMap hexByte ++ [Char.ofNat 45] ++
             ((b.drop 4).take 2).flatMap hexByte ++ [Char.ofNat 45] ++
             ((b.drop 6).take 2).flatMap hexByte ++ [Char.ofNat 45] ++
             ((b.drop 8).take 2).flatMap hexByte ++ [Char.ofNat 45] ++
             (b.drop 10).flatMap hexByte)

/-- `&session_id[..8]` in `create_sync_session`: the first 8 characters of
the session id string (all ASCII, so the byte slice is a char slice). -/
def sessionFingerprint (sessionId : String) : String := String.mk (sessionId.data.take 8)

/-- The TXT properties `SyncDiscovery::announce` publishes. -/
def announceTxt (deviceName fingerprint : String) : List (String × String) :=
  [(("device"), deviceName), (("fingerprint"), fingerprint), (("version"), ("1"))]

/-- Lookup of a TXT key. -/
def txtLookup : List (String × String) → String → Option String
  | [], _ => none
  | (k, v) :: rest, key => if k = key then some v else txtLookup rest key

/-- The TXT `fingerprint` value that `create_sync_session` announces for a
session whose 128-bit id has the given 16 bytes. -/
def announcedFingerprint (uuidBytes : List Nat) (deviceName : String) : Option String :=
  txtLookup (announceTxt deviceName (sessionFingerprint (uuidToString uuidBytes))) ("fingerprint")

-- -------------------------------------------------------------------------
-- SyncState and leave_sync_session (src/src-tauri/src/sync/mod.rs)
-- -------------------------------------------------------------------------

/-- Connection status exposed to the frontend. -/
inductive SyncStatus where
  | disconnected
  | waitingForPeer
  | connecting
  | connected
deriving DecidableEq

/-- Information about a connected peer device. -/
structure PeerInfo where
  device_id : String
  device_name : String
  connected_at : Int
deriving DecidableEq

/-- The sync state held by the controller.  The transport handle and the
mDNS discovery daemon are external resources; for the lifecycle claims only
their presence matters, so they are modelled as `Option Unit`. -/
structure SyncState where
  device_id : String
  device_name : String
  session_id : Option String
  status : SyncStatus
  pairing_code : Option String
  peer : Option PeerInfo
  doc : Doc
  transport : Option Unit
  discovery : Option Unit
deriving DecidableEq

/-- `SyncState::reset_session`: clear the session fields, shut down
discovery and transport, replace the document by a fresh one, and set the
status to Disconnected. -/
def SyncState.reset_session (s : SyncState) : SyncState :=
  { s with session_id := none, pairing_code := none, peer := none, transport := none,
           discovery := none, doc := freshDoc, status := SyncStatus.disconnected }

/-- `leave_sync_session`: return Ok immediately when already disconnected,
otherwise reset the session.  The Tauri event emission is external library
code and is modelled as infallible, per the spec's UI event stream. -/
def leave_sync_session (s : SyncState) : Except String Unit × SyncState :=
  if s.status = SyncStatus.disconnected then (Except.ok (), s)
  else (Except.ok (), s.reset_session)

/-- All session data is gone. -/
def Wiped (s : SyncState) : Prop :=
  s.session_id = none ∧ s.pairing_code = none ∧ s.peer = none ∧ s.transport = none ∧
  s.discovery = none ∧ s.doc = freshDoc

/-- The reachable-state invariant: a disconnected state holds no stale
session data.  It holds for the initial state and is re-established by
`reset_session`; every transition that populates session data also moves
the status away from Disconnected while holding the state lock. -/
def DisconnectedWiped (s : SyncState) : Prop :=
  s.status = SyncStatus.disconnected → Wiped s

/-- `SyncState::default()` with a given device identity. -/
def SyncState.default (devId devName : String) : SyncState :=
  { device_id := devId, device_name := devName, session_id := none,
    status := SyncStatus.disconnected, pairing_code := none, peer := none,
    doc := freshDoc, transport := none, discovery := none }

-- -------------------------------------------------------------------------
-- Supporting lemmas: byte encodings and digest lengths
-- -------------------------------------------------------------------------

theorem toBEBytes_length (n : Nat) : ∀ v, (toBEBytes n v).length = n := by
  induction n with
  | zero => intro v; rfl
  | succ n ih => intro v; simp [toBEBytes, ih]

theorem toBEBytes_lt (n : Nat) : ∀ v, ∀ b ∈ toBEBytes n v, b < 256 := by
  induction n with
  | zero => intro v b hb; simp [toBEBytes] at hb
  | succ n ih =>
      intro v b hb
      simp only [toBEBytes, List.mem_append, List.mem_singleton] at hb
      rcases hb with hb | hb
      · exact ih _ b hb
      · subst hb; exact Nat.mod_lt _ (by omega)

theorem toBEBytes_getD (k : Nat) :
    ∀ v i, i < k → (toBEBytes k v).getD i 0 = v / 256 ^ (k - 1 - i) % 256 := by
  induction k with
  | zero => intro v i h; omega
  | succ k ih =>
      intro v i h
      by_cases hik : i < k
      · rw [show toBEBytes (k + 1) v = toBEBytes k (v / 256) ++ [v % 256] from rfl]
        rw [List.getD_append _ _ _ _ (by rw [toBEBytes_length]; exact hik)]
        rw [ih (v / 256) i hik, Nat.div_div_eq_div_mul]
        have h1 : 256 * 256 ^ (k - 1 - i) = 256 ^ (k - i) := by
          rw [show k - i = (k - 1 - i) + 1 by omega, Nat.pow_succ, Nat.mul_comm]
        have h2 : k + 1 - 1 - i = k - i := by omega
        rw [h1, h2]
      · have hk : i = k := by omega
        subst hk
        rw [show toBEBytes (i + 1) v = toBEBytes i (v / 256) ++ [v % 256] from rfl]
        rw [List.getD_append_right _ _ _ _ (by rw [toBEBytes_length])]
        simp [toBEBytes_length]

theorem zeroBytes_eq (l : List Nat) : zeroBytes l = List.replicate l.length 0 := by
  induction l with
  | nil => rfl
  | cons a t ih => simp only [zeroBytes, List.map_cons, List.length_cons, List.replicate_succ] at *
                   rw [ih]

theorem compressRound_length (k w : Nat) (st : List Nat) :
    (compressRound k w st).length = st.length := by
  unfold compressRound
  split <;> simp

theorem foldlRound_length (l : List (Nat × Nat)) :
    ∀ st : List Nat, (l.foldl (fun st kw => compressRound kw.1 kw.2 st) st).length = st.length := by
  induction l with
  | nil => intro st; rfl
  | cons a t ih => intro st; rw [List.foldl_cons, ih, compressRound_length]

theorem compressBlock_length (h b : List Nat) : (compressBlock h b).length = h.length := by
  unfold compressBlock
  rw [List.length_zipWith, foldlRound_length, Nat.min_self]

theorem foldlBlocks_length (bs : List (List Nat)) :
    ∀ h : List Nat, (bs.foldl compressBlock h).length = h.length := by
  induction bs with
  | nil => intro h; rfl
  | cons b t ih => intro h; rw [List.foldl_cons, ih, compressBlock_length]

theorem foldrBytes_length (ws : List Nat) :
    (ws.foldr (fun w acc => toBEBytes 4 w ++ acc) []).length = 4 * ws.length := by
  induction ws with
  | nil => rfl
  | cons w t ih =>
      simp only [List.foldr_cons, List.length_append, toBEBytes_length, List.length_cons, ih]
      ring

theorem sha256_length (msg : List Nat) : (sha256 msg).length = 32 := by
  unfold sha256
  rw [foldrBytes_length, foldlBlocks_length]
  rfl

theorem sha256_lt (msg : List Nat) : ∀ b ∈ sha256 msg, b < 256 := by
  unfold sha256
  generalize (chunks64 (padMessage msg)).foldl compressBlock sha256H0 = ws
  induction ws with
  | nil => intro b hb; simp at hb
  | cons w t ih =>
      intro b hb
      simp only [List.foldr_cons, List.mem_append] at hb
      rcases hb with hb | hb
      · exact toBEBytes_lt 4 w b hb
      · exact ih b hb

theorem hmacSha256_length (key msg : List Nat) : (hmacSha256 key msg).length = 32 := by
  unfold hmacSha256
  exact sha256_length _

theorem hkdf32_length (salt ikm info : List Nat) : (hkdf32 salt ikm info).length = 32 := by
  unfold hkdf32 hkdfExpand32
  exact hmacSha256_length _ _

theorem counter_to_nonce_eq (c : Nat) :
    counter_to_nonce c = List.replicate 4 0 ++ toBEBytes 8 c := by
  unfold counter_to_nonce setRange
  rw [toBEBytes_length]
  simp [List.take_replicate, List.drop_replicate]

theorem encState_counter (A : AEAD) (ps : Nat → List Nat) (s0 : SessionEncryption)
    (h0 : s0.seal_counter = 0) :
    ∀ n, (encState A ps s0 n).seal_counter = n % u64Mod := by
  intro n
  induction n with
  | zero => simpa [encState] using h0
  | succ n ih =>
      show ((encState A ps s0 n).encrypt A (ps n)).2.seal_counter = (n + 1) % u64Mod
      simp only [SessionEncryption.encrypt, ih]
      conv_rhs => rw [Nat.add_mod]
      rw [show 1 % u64Mod = 1 from rfl]

theorem rotate_key_fst (s : SessionEncryption) :
    s.rotate_key.1 = { s with key_material := nextKey s.key_material, seal_counter := 0 } := rfl

theorem rotate_key_snd (s : SessionEncryption) : s.rotate_key.2 = zeroBytes s.key_material := rfl

theorem rotate_key_km (s : SessionEncryption) :
    s.rotate_key.1.key_material = nextKey s.key_material := by
  rw [rotate_key_fst]

theorem nextKey_eq (key : List Nat) :
    nextKey key = hkdf32 (strBytes ("aurus-sync-rotate")) key (strBytes ("next-key")) := rfl

theorem decryptMany_id (A : AEAD) (envs : List EncryptedEnvelope) :
    ∀ s : SessionEncryption, decryptMany A s envs = s := by
  induction envs with
  | nil => intro s; rfl
  | cons e t ih => intro s; exact ih s

-- -------------------------------------------------------------------------
-- C1 — cipher round trip
-- -------------------------------------------------------------------------

/-- C1: for every plaintext `p`, any two ciphers holding the key material
derived from the same shared secret with the same rotation history satisfy
`decrypt (encrypt p) = p`, provided the AEAD primitive is correct. -/
theorem encrypt_decrypt_roundtrip (A : AEAD) (hA : AEADCorrect A) (secret : List Nat)
    (epoch : Nat) (s r : SessionEncryption)
    (hs : s.key_material = derivedKey secret epoch)
    (hr : r.key_material = derivedKey secret epoch) (p : List Nat) :
    (r.decrypt A (s.encrypt A p).1).1 = some p := by
  show A.openA r.key_material (counter_to_nonce s.seal_counter)
        (A.sealA s.key_material (counter_to_nonce s.seal_counter) p) = some p
  rw [hs, hr]
  exact hA _ _ _

set_option maxHeartbeats 1000000 in
/-- Witness for C1 at a concrete secret, plaintext and AEAD instance. -/
theorem encrypt_decrypt_roundtrip_witness :
    ((SessionEncryption.from_shared_secret (List.replicate 32 7)).decrypt prefixTagAEAD
      ((SessionEncryption.from_shared_secret (List.replicate 32 7)).encrypt prefixTagAEAD
        [10, 20, 30]).1).1 = some [10, 20, 30] :=
  encrypt_decrypt_roundtrip prefixTagAEAD prefixTagAEAD_correct (List.replicate 32 7) 0
    (SessionEncryption.from_shared_secret (List.replicate 32 7))
    (SessionEncryption.from_shared_secret (List.replicate 32 7)) rfl rfl [10, 20, 30]

-- -------------------------------------------------------------------------
-- C2 — counter sequence and nonce layout
-- -------------------------------------------------------------------------

/-- C2: within one key epoch the `n`-th encrypt call (0-based) places
counter `n` in its envelope, and the nonce derived from a counter is 4 zero
bytes followed by the 8 big-endian counter bytes. -/
theorem counter_sequence_and_nonce_layout (A : AEAD) (ps : Nat → List Nat)
    (s0 : SessionEncryption) (h0 : s0.seal_counter = 0) (n : Nat) (hn : n < u64Mod) :
    (nthEnvelope A ps s0 n).counter = n ∧
    counter_to_nonce n = List.replicate 4 0 ++ toBEBytes 8 n ∧
    (∀ i, i < 8 → (toBEBytes 8 n).getD i 0 = n / 256 ^ (7 - i) % 256) := by
  refine ⟨?_, counter_to_nonce_eq n, ?_⟩
  · show ((encState A ps s0 n).encrypt A (ps n)).1.counter = n
    simp only [SessionEncryption.encrypt, encState_counter A ps s0 h0 n]
    exact Nat.mod_eq_of_lt hn
  · intro i hi
    exact toBEBytes_getD 8 n i hi

/-- Witness for C2 at the fourth encrypt call of a fresh cipher. -/
theorem counter_sequence_witness :
    (nthEnvelope prefixTagAEAD (fun _ => [1])
      { shared_secret := [], key_material := [9], seal_counter := 0 } 3).counter = 3 ∧
    counter_to_nonce 3 = List.replicate 4 0 ++ toBEBytes 8 3 := by
  have h := counter_sequence_and_nonce_layout prefixTagAEAD (fun _ => [1])
    { shared_secret := [], key_material := [9], seal_counter := 0 } rfl 3 (by decide)
  exact ⟨h.1, h.2.1⟩

-- -------------------------------------------------------------------------
-- C3 — key rotation
-- -------------------------------------------------------------------------

set_option maxHeartbeats 1600000 in
/-- C3: `rotate_key` derives the replacement key by HKDF-SHA256 with salt
"aurus-sync-rotate", ikm the current key material, info "next-key" and
output length 32; the old key buffer is left all zero; the seal counter is
reset, so the first encrypt after a rotation carries counter 0. -/
theorem rotate_key_spec (s : SessionEncryption) :
    s.rotate_key.1.key_material =
      hkdf32 (strBytes ("aurus-sync-rotate")) s.key_material (strBytes ("next-key")) ∧
    s.rotate_key.1.key_material.length = 32 ∧
    s.rotate_key.2 = List.replicate s.key_material.length 0 ∧
    s.rotate_key.1.seal_counter = 0 ∧
    ∀ (A : AEAD) (p : List Nat), (s.rotate_key.1.encrypt A p).1.counter = 0 := by
  refine ⟨?_, ?_, ?_, ?_, ?_⟩
  · rw [rotate_key_km, nextKey_eq]
  · rw [rotate_key_km, nextKey_eq]
    exact hkdf32_length _ _ _
  · rw [rotate_key_snd]
    exact zeroBytes_eq s.key_material
  · rw [rotate_key_fst]
  · intro A p
    rw [rotate_key_fst]
    simp [SessionEncryption.encrypt]

-- -------------------------------------------------------------------------
-- C10 — decrypt leaves the cipher state unchanged
-- -------------------------------------------------------------------------

/-- C10: `decrypt` neither advances the seal counter nor changes the key
material, so any number of decrypts between two encrypts (within one
epoch) leaves the second envelope's counter exactly one greater than the
first's. -/
theorem decrypt_frame (A : AEAD) (s : SessionEncryption) (h : s.seal_counter + 1 < u64Mod) :
    (∀ env, (s.decrypt A env).2 = s) ∧
    (∀ (envs : List EncryptedEnvelope) (p q : List Nat),
      ((decryptMany A ((s.encrypt A p).2) envs).encrypt A q).1.counter =
        (s.encrypt A p).1.counter + 1) := by
  refine ⟨fun env => rfl, fun envs p q => ?_⟩
  rw [decryptMany_id]
  show ((s.encrypt A p).2).seal_counter = s.seal_counter + 1
  simp only [SessionEncryption.encrypt]
  exact Nat.mod_eq_of_lt h

/-- Witness for C10: one decrypt interleaved between two encrypts. -/
theorem decrypt_frame_witness :
    ((SessionEncryption.mk [] [5] 0).decrypt prefixTagAEAD (EncryptedEnvelope.mk 0 [])).2 =
      SessionEncryption.mk [] [5] 0 ∧
    ((decryptMany prefixTagAEAD (((SessionEncryption.mk [] [5] 0).encrypt prefixTagAEAD [1]).2)
        [EncryptedEnvelope.mk 0 []]).encrypt prefixTagAEAD [2]).1.counter =
      (((SessionEncryption.mk [] [5] 0).encrypt prefixTagAEAD [1]).1).counter + 1 := by
  have h := decrypt_frame prefixTagAEAD (SessionEncryption.mk [] [5] 0) (by decide)
  exact ⟨h.1 (EncryptedEnvelope.mk 0 []), h.2 [EncryptedEnvelope.mk 0 []] [1] [2]⟩

-- -------------------------------------------------------------------------
-- Hex-encoding lemmas
-- -------------------------------------------------------------------------

theorem hexDigit_mem : ∀ n, n < 16 → hexDigit n ∈ (("0123456789abcdef") : String).data := by
  decide

theorem hexDigit_inj : ∀ a, a < 16 → ∀ b, b < 16 → hexDigit a = hexDigit b → a = b := by
  decide

theorem flatMap_hexByte_length (l : List Nat) : (l.flatMap hexByte).length = 2 * l.length := by
  induction l with
  | nil => rfl
  | cons b t ih =>
      simp only [List.flatMap_cons, hexByte, List.length_append, List.length_cons,
                 List.length_nil, ih]
      omega

theorem flatMap_hexByte_inj :
    ∀ l1 l2 : List Nat, (∀ b ∈ l1, b < 256) → (∀ b ∈ l2, b < 256) →
      l1.flatMap hexByte = l2.flatMap hexByte → l1 = l2 := by
  intro l1
  induction l1 with
  | nil =>
      intro l2 _ _ h
      cases l2 with
      | nil => rfl
      | cons b t => simp [hexByte] at h
  | cons a t ih =>
      intro l2 h1 h2 h
      cases l2 with
      | nil => simp [hexByte] at h
      | cons b t2 =>
          simp only [List.flatMap_cons, hexByte, List.cons_append, List.nil_append] at h
          injection h with e1 h'
          injection h' with e2 e3
          have ha : a < 256 := h1 a (List.mem_cons_self a t)
          have hb : b < 256 := h2 b (List.mem_cons_self b t2)
          have d1 : a / 16 % 16 = b / 16 % 16 :=
            hexDigit_inj _ (Nat.mod_lt _ (by omega)) _ (Nat.mod_lt _ (by omega)) e1
          have d2 : a % 16 = b % 16 :=
            hexDigit_inj _ (Nat.mod_lt _ (by omega)) _ (Nat.mod_lt _ (by omega)) e2
          have hab : a = b := by omega
          rw [hab, ih t2 (fun x hx => h1 x (List.mem_cons_of_mem a hx))
                (fun x hx => h2 x (List.mem_cons_of_mem b hx)) e3]

theorem mk_length (l : List Char) : (String.mk l).length = l.length := rfl

-- -------------------------------------------------------------------------
-- C4 — room id derivation
-- -------------------------------------------------------------------------

/-- C4: `room_id_from_pairing_code` is the lowercase hex encoding of the
SHA-256 digest of the code's UTF-8 bytes; it always has 64 characters, all
of them lowercase hex digits, and codes with distinct digests map to
distinct room ids. -/
theorem room_id_spec :
    (∀ code : String, room_id_from_pairing_code code = hex_encode (sha256 (strBytes code))) ∧
    (∀ code : String, (room_id_from_pairing_code code).length = 64) ∧
    (∀ code : String, ∀ c ∈ (room_id_from_pairing_code code).data,
        c ∈ (("0123456789abcdef") : String).data) ∧
    (∀ c1 c2 : String, sha256 (strBytes c1) ≠ sha256 (strBytes c2) →
        room_id_from_pairing_code c1 ≠ room_id_from_pairing_code c2) := by
  refine ⟨fun code => rfl, fun code => ?_, fun code c hc => ?_, fun c1 c2 hne heq => ?_⟩
  · show (hex_encode (sha256 (strBytes code))).length = 64
    unfold hex_encode
    rw [mk_length, flatMap_hexByte_length, sha256_length]
  · have hc2 : c ∈ (sha256 (strBytes code)).flatMap hexByte := hc
    rw [List.mem_flatMap] at hc2
    obtain ⟨b, hb, hcb⟩ := hc2
    simp only [hexByte, List.mem_cons, List.not_mem_nil, or_false] at hcb
    rcases hcb with hcb | hcb <;> rw [hcb] <;>
      exact hexDigit_mem _ (Nat.mod_lt _ (by omega))
  · apply hne
    have hdata : (sha256 (strBytes c1)).flatMap hexByte =
        (sha256 (strBytes c2)).flatMap hexByte := congrArg String.data heq
    exact flatMap_hexByte_inj _ _ (sha256_lt _) (sha256_lt _) hdata

set_option maxRecDepth 200000 in
set_option maxHeartbeats 4000000 in
/-- Witness for C4 at two concrete pairing codes with distinct digests. -/
theorem room_id_witness :
    (room_id_from_pairing_code ("7-violet-castle")).length = 64 ∧
    room_id_from_pairing_code ("7-violet-castle") ≠ room_id_from_pairing_code ("3-amber-bridge") := by
  have h := room_id_spec
  exact ⟨h.2.1 ("7-violet-castle"), h.2.2.2 _ _ (by decide)⟩

-- -------------------------------------------------------------------------
-- C8 — the announced fingerprint
-- -------------------------------------------------------------------------

/-- C8 counterexample: for a concrete session id (16 zero bytes) the TXT
`fingerprint` value is not the hex encoding of the first 64 bits (8 bytes)
of the session id — it is shorter. -/
theorem fingerprint_not_first64 :
    announcedFingerprint (List.replicate 16 0) ("Mac") ≠
      some (hex_encode ((List.replicate 16 0).take 8)) := by decide

/-- C8 (amended): the TXT `fingerprint` value announced by
`create_sync_session` is the first 8 characters of the session id's
hyphenated lowercase-hex string — the hex encoding of the first 32 bits
(4 bytes) of the 128-bit session id. -/
theorem fingerprint_spec (b : List Nat) (h : b.length = 16) (name : String) :
    announcedFingerprint b name = some (hex_encode (b.take 4)) := by
  show txtLookup (announceTxt name (sessionFingerprint (uuidToString b))) ("fingerprint") =
    some (hex_encode (b.take 4))
  simp only [announceTxt, txtLookup]
  rw [if_neg (show ¬ (("device") = ("fingerprint")) by decide)]
  rw [if_pos trivial]
  show some (sessionFingerprint (uuidToString b)) = some (hex_encode (b.take 4))
  congr 1
  show String.mk ((uuidToString b).data.take 8) = String.mk ((b.take 4).flatMap hexByte)
  congr 1
  have h0 : (uuidToString b).data =
      (b.take 4).flatMap hexByte ++ [Char.ofNat 45] ++ ((b.drop 4).take 2).flatMap hexByte ++
      [Char.ofNat 45] ++ ((b.drop 6).take 2).flatMap hexByte ++ [Char.ofNat 45] ++
      ((b.drop 8).take 2).flatMap hexByte ++ [Char.ofNat 45] ++ (b.drop 10).flatMap hexByte := rfl
  simp only [List.append_assoc] at h0
  rw [h0]
  apply List.take_left'
  rw [flatMap_hexByte_length, List.length_take, h]
  decide

/-- Witness for the amended C8 at a concrete session id. -/
theorem fingerprint_spec_witness :
    announcedFingerprint (List.replicate 16 171) ("Mac") =
      some (hex_encode ((List.replicate 16 171).take 4)) :=
  fingerprint_spec (List.replicate 16 171) (by decide) ("Mac")

-- -------------------------------------------------------------------------
-- Relay lemmas
-- -------------------------------------------------------------------------

theorem mem_setRoom :
    ∀ (rooms : Rooms) (room : String) (cs : List String) (e : String × List String),
      e ∈ setRoom rooms room cs → e.2 = cs ∨ e ∈ rooms := by
  intro rooms
  induction rooms with
  | nil =>
      intro room cs e he
      simp only [setRoom, List.mem_singleton] at he
      subst he
      exact Or.inl rfl
  | cons hd t ih =>
      intro room cs e he
      obtain ⟨r, old⟩ := hd
      by_cases hr : r = room
      · rw [show setRoom ((r, old) :: t) room cs =
            if r = room then (r, cs) :: t else (r, old) :: setRoom t room cs from rfl,
          if_pos hr] at he
        rcases List.mem_cons.mp he with he | he
        · subst he; exact Or.inl rfl
        · exact Or.inr (List.mem_cons_of_mem _ he)
      · rw [show setRoom ((r, old) :: t) room cs =
            if r = room then (r, cs) :: t else (r, old) :: setRoom t room cs from rfl,
          if_neg hr] at he
        rcases List.mem_cons.mp he with he | he
        · subst he; exact Or.inr (List.mem_cons_self _ _)
        · rcases ih room cs e he with h | h
          · exact Or.inl h
          · exact Or.inr (List.mem_cons_of_mem _ h)

theorem mem_removeRoom :
    ∀ (rooms : Rooms) (room : String) (e : String × List String),
      e ∈ removeRoom rooms room → e ∈ rooms := by
  intro rooms
  induction rooms with
  | nil => intro room e he; exact absurd he (List.not_mem_nil _)
  | cons hd t ih =>
      intro room e he
      obtain ⟨r, old⟩ := hd
      by_cases hr : r = room
      · rw [show removeRoom ((r, old) :: t) room =
            if r = room then t else (r, old) :: removeRoom t room from rfl, if_pos hr] at he
        exact List.mem_cons_of_mem _ he
      · rw [show removeRoom ((r, old) :: t) room =
            if r = room then t else (r, old) :: removeRoom t room from rfl, if_neg hr] at he
        rcases List.mem_cons.mp he with he | he
        · subst he; exact List.mem_cons_self _ _
        · exact List.mem_cons_of_mem _ (ih room e he)

theorem lookupRoom_mem :
    ∀ (rooms : Rooms) (room : String) (cs : List String),
      lookupRoom rooms room = some cs → (room, cs) ∈ rooms := by
  intro rooms
  induction rooms with
  | nil => intro room cs h; simp [lookupRoom] at h
  | cons hd t ih =>
      intro room cs h
      obtain ⟨r, old⟩ := hd
      by_cases hr : r = room
      · rw [show lookupRoom ((r, old) :: t) room =
            if r = room then some old else lookupRoom t room from rfl, if_pos hr] at h
        injection h with h
        subst h; subst hr
        exact List.mem_cons_self _ _
      · rw [show lookupRoom ((r, old) :: t) room =
            if r = room then some old else lookupRoom t room from rfl, if_neg hr] at h
        exact List.mem_cons_of_mem _ (ih room cs h)

theorem insertClient_length (cs : List String) (cid : String) :
    (insertClient cs cid).length ≤ cs.length + 1 := by
  unfold insertClient
  split
  · omega
  · simp

theorem capOK_append_empty (rooms : Rooms) (room : String) (h : capOK rooms) :
    capOK (rooms ++ [(room, [])]) := by
  intro e he
  rcases List.mem_append.mp he with he | he
  · exact h e he
  · rw [List.mem_singleton.mp he]
    simp [MAX_CLIENTS_PER_ROOM]

theorem capOK_step (rooms : Rooms) (hc : capOK rooms) (ev : RelayEvent) :
    capOK (relayStep rooms ev).1 := by
  cases ev with
  | join room cid =>
      show capOK (joinRoom rooms room cid).1
      unfold joinRoom
      cases hlk : lookupRoom rooms room with
      | some cs =>
          simp only [hlk]
          split
          · exact hc
          · rename_i hfull
            intro e he
            rcases mem_setRoom _ _ _ e he with h | h
            · rw [h]
              have h1 := insertClient_length ((Option.some cs).getD []) cid
              simp only [Option.getD_some] at h1 ⊢
              simp only [Option.getD_some, MAX_CLIENTS_PER_ROOM, not_le] at hfull ⊢
              omega
            · exact hc e h
      | none =>
          simp only [hlk]
          split
          · exact capOK_append_empty rooms room hc
          · rename_i hfull
            intro e he
            rcases mem_setRoom _ _ _ e he with h | h
            · rw [h]
              have h1 := insertClient_length ((lookupRoom (rooms ++ [(room, [])]) room).getD []) cid
              simp only [MAX_CLIENTS_PER_ROOM, not_le] at hfull ⊢
              omega
            · exact capOK_append_empty rooms room hc e h
  | relayMsg room cid payload =>
      show capOK (relayToRoom rooms room cid payload).1
      unfold relayToRoom
      cases hlk : lookupRoom rooms room with
      | some cs => simp only [hlk]; exact hc
      | none => simp only [hlk]; exact hc
  | disconnect room cid =>
      show capOK (disconnectClient rooms room cid).1
      unfold disconnectClient
      cases hlk : lookupRoom rooms room with
      | none => simp only [hlk]; exact hc
      | some cs =>
          simp only [hlk]
          split
          · exact fun e he => hc e (mem_removeRoom _ _ e he)
          · intro e he
            rcases mem_setRoom _ _ _ e he with h | h
            · rw [h]
              have h1 : (cs.filter (fun c => c ≠ cid)).length ≤ cs.length :=
                List.length_filter_le _ _
              have h2 : cs.length ≤ MAX_CLIENTS_PER_ROOM := hc (room, cs) (lookupRoom_mem _ _ _ hlk)
              omega
            · exact hc e h

theorem capOK_foldl (evs : List RelayEvent) :
    ∀ rooms : Rooms, capOK rooms →
      capOK (evs.foldl (fun rooms e => (relayStep rooms e).1) rooms) := by
  induction evs with
  | nil => intro rooms h; exact h
  | cons e t ih => intro rooms h; exact ih _ (capOK_step rooms h e)

-- -------------------------------------------------------------------------
-- C5 — relay room capacity
-- -------------------------------------------------------------------------

/-- C5: in every state the relay can reach from startup, every room holds
at most 2 members; and a join for a room that already has 2 members leaves
the room table unchanged and sends no message to anyone — no `peer_joined`
and no reply to the joiner. -/
theorem relay_room_capacity :
    (∀ evs : List RelayEvent, capOK (runRelay evs)) ∧
    (∀ (rooms : Rooms) (room cid : String) (cs : List String),
      lookupRoom rooms room = some cs → cs.length = MAX_CLIENTS_PER_ROOM →
      joinRoom rooms room cid = (rooms, [])) := by
  constructor
  · intro evs
    exact capOK_foldl evs [] (fun e he => absurd he (List.not_mem_nil _))
  · intro rooms room cid cs hlk hfull
    unfold joinRoom
    simp only [hlk, Option.getD_some]
    rw [if_pos (by rw [hfull])]

/-- Witness for C5: a third join to a full room is a no-op, and a concrete
three-join run keeps every room at no more than two members. -/
theorem relay_room_capacity_witness :
    capOK (runRelay [RelayEvent.join ("r") ("a"), RelayEvent.join ("r") ("b"),
      RelayEvent.join ("r") ("c")]) ∧
    joinRoom [(("r"), [("a"), ("b")])] ("r") ("c") = ([(("r"), [("a"), ("b")])], []) := by
  have h := relay_room_capacity
  exact ⟨h.1 _, h.2 [(("r"), [("a"), ("b")])] ("r") ("c") [("a"), ("b")] (by decide) (by decide)⟩

-- -------------------------------------------------------------------------
-- Document merge lemmas
-- -------------------------------------------------------------------------

/-- The document already holds, at `e`'s slot, an entry at least as new as
`e`; merging `e` again is then a no-op. -/
def Dominates (d : Doc) (e : DocEntry) : Prop :=
  ∃ cur, lookupSlot d e.mapName e.key = some cur ∧ e.ts ≤ cur.ts

theorem lookupSlot_cons (x : DocEntry) (t : Doc) (m k : String) :
    lookupSlot (x :: t) m k =
      if x.mapName = m ∧ x.key = k then some x else lookupSlot t m k := rfl

theorem lookupSlot_append_some (d : Doc) (l : Doc) (m k : String) (x : DocEntry)
    (h : lookupSlot d m k = some x) : lookupSlot (d ++ l) m k = some x := by
  induction d with
  | nil => simp [lookupSlot] at h
  | cons hd t ih =>
      rw [List.cons_append, lookupSlot_cons]
      rw [lookupSlot_cons] at h
      split at h
      · rw [if_pos (by assumption)]; exact h
      · rw [if_neg (by assumption)]; exact ih h

theorem lookupSlot_append_none (d : Doc) (l : Doc) (m k : String)
    (h : lookupSlot d m k = none) : lookupSlot (d ++ l) m k = lookupSlot l m k := by
  induction d with
  | nil => rfl
  | cons hd t ih =>
      rw [List.cons_append, lookupSlot_cons]
      rw [lookupSlot_cons] at h
      split at h
      · exact absurd h (by simp)
      · rw [if_neg (by assumption)]; exact ih h

theorem replaceSlot_cons (x : DocEntry) (t : Doc) (f : DocEntry) :
    replaceSlot (x :: t) f =
      if x.mapName = f.mapName ∧ x.key = f.key then f :: t else x :: replaceSlot t f := rfl

theorem lookupSlot_replaceSlot (f : DocEntry) :
    ∀ (d : Doc) (old : DocEntry), lookupSlot d f.mapName f.key = some old →
      ∀ m k, lookupSlot (replaceSlot d f) m k =
        if f.mapName = m ∧ f.key = k then some f else lookupSlot d m k := by
  intro d
  induction d with
  | nil => intro old h; simp [lookupSlot] at h
  | cons x t ih =>
      intro old h m k
      rw [lookupSlot_cons] at h
      by_cases hx : x.mapName = f.mapName ∧ x.key = f.key
      · rw [replaceSlot_cons, if_pos hx, lookupSlot_cons, lookupSlot_cons]
        by_cases hf : f.mapName = m ∧ f.key = k
        · rw [if_pos hf, if_pos hf]
        · rw [if_neg hf, if_neg hf, if_neg (fun hxc => hf ⟨hx.1 ▸ hxc.1, hx.2 ▸ hxc.2⟩)]
      · rw [replaceSlot_cons, if_neg hx, lookupSlot_cons, lookupSlot_cons]
        rw [if_neg hx] at h
        by_cases hf : f.mapName = m ∧ f.key = k
        · rw [if_pos hf, if_neg (fun hxc => hx ⟨hxc.1.trans hf.1.symm, hxc.2.trans hf.2.symm⟩)]
          rw [ih old h m k, if_pos hf]
        · rw [if_neg hf]
          by_cases hxm : x.mapName = m ∧ x.key = k
          · rw [if_pos hxm, if_pos hxm]
          · rw [if_neg hxm, if_neg hxm, ih old h m k, if_neg hf]

theorem mergeEntry_eq_none (d : Doc) (e : DocEntry)
    (h : lookupSlot d e.mapName e.key = none) : mergeEntry d e = d ++ [e] := by
  unfold mergeEntry
  rw [h]

theorem mergeEntry_eq_some (d : Doc) (e old : DocEntry)
    (h : lookupSlot d e.mapName e.key = some old) :
    mergeEntry d e = if old.ts < e.ts then replaceSlot d e else d := by
  unfold mergeEntry
  rw [h]

theorem dominates_mergeEntry_self (d : Doc) (e : DocEntry) : Dominates (mergeEntry d e) e := by
  cases hl : lookupSlot d e.mapName e.key with
  | none =>
      rw [mergeEntry_eq_none d e hl]
      refine ⟨e, ?_, Nat.le_refl _⟩
      rw [lookupSlot_append_none d _ _ _ hl, lookupSlot_cons, if_pos ⟨rfl, rfl⟩]
  | some old =>
      rw [mergeEntry_eq_some d e old hl]
      by_cases hts : old.ts < e.ts
      · rw [if_pos hts]
        refine ⟨e, ?_, Nat.le_refl _⟩
        rw [lookupSlot_replaceSlot e d old hl, if_pos ⟨rfl, rfl⟩]
      · rw [if_neg hts]
        exact ⟨old, hl, Nat.le_of_not_lt hts⟩

theorem dominates_mergeEntry_mono (d : Doc) (e f : DocEntry) (hd : Dominates d e) :
    Dominates (mergeEntry d f) e := by
  obtain ⟨cur, hcur, hts⟩ := hd
  cases hl : lookupSlot d f.mapName f.key with
  | none =>
      rw [mergeEntry_eq_none d f hl]
      exact ⟨cur, lookupSlot_append_some d _ _ _ cur hcur, hts⟩
  | some old =>
      rw [mergeEntry_eq_some d f old hl]
      by_cases hlt : old.ts < f.ts
      · rw [if_pos hlt]
        have hrepl := lookupSlot_replaceSlot f d old hl e.mapName e.key
        by_cases hfe : f.mapName = e.mapName ∧ f.key = e.key
        · rw [if_pos hfe] at hrepl
          have hco : cur = old := by
            rw [← hfe.1, ← hfe.2] at hcur
            exact (Option.some.inj (hl.symm.trans hcur)).symm
          exact ⟨f, hrepl, Nat.le_of_lt (Nat.lt_of_le_of_lt (hco ▸ hts) hlt)⟩
        · rw [if_neg hfe] at hrepl
          exact ⟨cur, hrepl.trans hcur, hts⟩
      · rw [if_neg hlt]
        exact ⟨cur, hcur, hts⟩

theorem dominates_mergeDoc (u : List DocEntry) :
    ∀ (d : Doc) (e : DocEntry), Dominates d e → Dominates (mergeDoc d u) e := by
  induction u with
  | nil => intro d e h; exact h
  | cons f t ih =>
      intro d e h
      exact ih (mergeEntry d f) e (dominates_mergeEntry_mono d e f h)

theorem mergeDoc_dominates_mem (u : List DocEntry) :
    ∀ d : Doc, ∀ e ∈ u, Dominates (mergeDoc d u) e := by
  induction u with
  | nil => intro d e he; exact absurd he (List.not_mem_nil _)
  | cons f t ih =>
      intro d e he
      rcases List.mem_cons.mp he with he | he
      · subst he
        exact dominates_mergeDoc t (mergeEntry d e) e (dominates_mergeEntry_self d e)
      · exact ih (mergeEntry d f) e he

theorem mergeEntry_noop (d : Doc) (e : DocEntry) (hd : Dominates d e) : mergeEntry d e = d := by
  obtain ⟨cur, hcur, hts⟩ := hd
  rw [mergeEntry_eq_some d e cur hcur, if_neg (Nat.not_lt.mpr hts)]

theorem mergeDoc_noop (u : List DocEntry) :
    ∀ d : Doc, (∀ e ∈ u, Dominates d e) → mergeDoc d u = d := by
  induction u with
  | nil => intro d _; rfl
  | cons f t ih =>
      intro d h
      show mergeDoc (mergeEntry d f) t = d
      rw [mergeEntry_noop d f (h f (List.mem_cons_self f t))]
      exact ih d (fun e he => h e (List.mem_cons_of_mem f he))

theorem mergeDoc_idem (d : Doc) (u : List DocEntry) :
    mergeDoc (mergeDoc d u) u = mergeDoc d u :=
  mergeDoc_noop u (mergeDoc d u) (mergeDoc_dominates_mem u d)

-- -------------------------------------------------------------------------
-- C6 — apply_update fails cleanly on malformed input
-- -------------------------------------------------------------------------

theorem apply_update_eq_none (d : Doc) (bytes : List Nat) (h : decodeUpdate bytes = none) :
    apply_update d bytes = (Except.error ("Failed to decode update"), d) := by
  unfold apply_update
  rw [h]

theorem apply_update_eq_some (d : Doc) (bytes : List Nat) (u : List DocEntry)
    (h : decodeUpdate bytes = some u) :
    apply_update d bytes = (Except.ok (), mergeDoc d u) := by
  unfold apply_update
  rw [h]

/-- C6: `apply_update` on bytes that do not decode as an update returns a
`DocumentError` and leaves the document unchanged. -/
theorem apply_update_malformed (d : Doc) (bytes : List Nat)
    (h : decodeUpdate bytes = none) :
    (apply_update d bytes).1 = Except.error ("Failed to decode update") ∧
    (apply_update d bytes).2 = d := by
  rw [apply_update_eq_none d bytes h]
  exact ⟨rfl, rfl⟩

/-- Witness for C6: the byte string `[1]` announces one entry but carries
none, so it is malformed. -/
theorem apply_update_malformed_witness :
    (apply_update [] [1]).1 = Except.error ("Failed to decode update") ∧
    (apply_update [] [1]).2 = [] :=
  apply_update_malformed [] [1] (by decide)

-- -------------------------------------------------------------------------
-- C7 — applying the same update twice is a no-op
-- -------------------------------------------------------------------------

/-- C7: if `apply_update` succeeds, applying the same bytes to the result
succeeds again and leaves the document state unchanged. -/
theorem apply_update_idempotent (d d' : Doc) (bytes : List Nat)
    (h : apply_update d bytes = (Except.ok (), d')) :
    apply_update d' bytes = (Except.ok (), d') := by
  cases hdec : decodeUpdate bytes with
  | none => rw [apply_update_eq_none d bytes hdec] at h; simp at h
  | some u =>
      rw [apply_update_eq_some d bytes u hdec] at h
      have h2 : mergeDoc d u = d' := congrArg Prod.snd h
      rw [apply_update_eq_some d' bytes u hdec, ← h2, mergeDoc_idem]

/-- Witness for C7 at a concrete one-entry update applied to the document
it produced. -/
theorem apply_update_idempotent_witness :
    apply_update [DocEntry.mk ("a") ("b") 5 ("c")] [1, 1, 97, 1, 98, 5, 1, 99] =
      (Except.ok (), [DocEntry.mk ("a") ("b") 5 ("c")]) :=
  apply_update_idempotent [] [DocEntry.mk ("a") ("b") 5 ("c")] [1, 1, 97, 1, 98, 5, 1, 99] rfl

-- -------------------------------------------------------------------------
-- C9 — leave_session is idempotent and infallible
-- -------------------------------------------------------------------------

theorem default_disconnectedWiped (devId devName : String) :
    DisconnectedWiped (SyncState.default devId devName) :=
  fun _ => ⟨rfl, rfl, rfl, rfl, rfl, rfl⟩

theorem reset_session_wiped (s : SyncState) :
    Wiped s.reset_session ∧ s.reset_session.status = SyncStatus.disconnected :=
  ⟨⟨rfl, rfl, rfl, rfl, rfl, rfl⟩, rfl⟩

/-- C9: `leave_sync_session` always returns Ok; called while already
Disconnected it leaves the state untouched; on any state satisfying the
reachable-state invariant the post-state is Disconnected with an empty
document and no pairing code; and a second call returns Ok without further
change. -/
theorem leave_session_spec :
    (∀ s : SyncState, (leave_sync_session s).1 = Except.ok ()) ∧
    (∀ s : SyncState, s.status = SyncStatus.disconnected → (leave_sync_session s).2 = s) ∧
    (∀ s : SyncState, DisconnectedWiped s →
      (leave_sync_session s).2.status = SyncStatus.disconnected ∧
        Wiped (leave_sync_session s).2) ∧
    (∀ s : SyncState, leave_sync_session (leave_sync_session s).2 =
      (Except.ok (), (leave_sync_session s).2)) := by
  refine ⟨fun s => ?_, fun s h => ?_, fun s hinv => ?_, fun s => ?_⟩
  · unfold leave_sync_session; split <;> rfl
  · unfold leave_sync_session; rw [if_pos h]
  · unfold leave_sync_session
    by_cases h : s.status = SyncStatus.disconnected
    · rw [if_pos h]
      exact ⟨h, hinv h⟩
    · rw [if_neg h]
      exact ⟨(reset_session_wiped s).2, (reset_session_wiped s).1⟩
  · have h2 : (leave_sync_session s).2.status = SyncStatus.disconnected := by
      unfold leave_sync_session
      split
      · rename_i hd
        exact hd
      · exact rfl
    generalize (leave_sync_session s).2 = s2 at h2 ⊢
    unfold leave_sync_session
    rw [if_pos h2]

/-- Witness for C9: one active state and one already-disconnected state. -/
theorem leave_session_spec_witness :
    (leave_sync_session (SyncState.mk ("d") ("n") (some ("sid")) SyncStatus.connected
        (some ("code")) none [] (some ()) none)).1 = Except.ok () ∧
    (leave_sync_session (SyncState.mk ("d") ("n") none SyncStatus.disconnected
        none none [] none none)).2 =
      SyncState.mk ("d") ("n") none SyncStatus.disconnected none none [] none none ∧
    Wiped (leave_sync_session (SyncState.mk ("d") ("n") (some ("sid")) SyncStatus.connected
        (some ("code")) none [] (some ()) none)).2 := by
  have h := leave_session_spec
  refine ⟨h.1 _, h.2.1 _ rfl, (h.2.2.1 _ ?_).2⟩
  intro hdis
  simp at hdis

end Aurus
